import Mathlib

/-!
# Verification of `stateinterpreter/MD.py` (class `Loader`)

Shallow embedding of the numerical pipeline of `stateinterpreter.MD.Loader`:
stride slicing of the loaded tables (`__init__`), logweight validation and the
FES pipeline (`identify_states`), KDE fitting (`approximate_FES`), basin
assignment and selection (`_basin_selection`), and dataset collection
(`collect_data`).

Scalars of the source (numpy floats) are embedded as elements of a linear
ordered field `K`; executable instantiations use `ℚ`, while statements about
the logarithmic FES relation use `ℝ`.  The missing modules
`stateinterpreter.io` and `stateinterpreter.numerical_utils` (not under the
sources given here) are modelled from the spec where indicated.
-/

set_option autoImplicit false

namespace MDLoader

variable {α : Type} {β : Type}
variable {K : Type} [LinearOrderedField K]

/-! ## Generic list helpers used by the embedding -/

/-- Embedding of the Python slice `xs[::s]` (`pandas.DataFrame.iloc[::stride]`
row selection, `MD.py` lines 63 and 70): keep exactly the entries whose index
is a multiple of `s`.  `strideGo s xs i` processes `xs` whose head sits at
global index `i`. -/
def strideGo (s : ℕ) : List α → ℕ → List α
  | [], _ => []
  | x :: xs, i => if i % s = 0 then x :: strideGo s xs (i + 1) else strideGo s xs (i + 1)

/-- `xs.iloc[::s]` : every `s`-th element of `xs` starting from index 0. -/
def ilocStride (s : ℕ) (xs : List α) : List α := strideGo s xs 0

/-- Minimum value of a list (0 for the empty list, which the source never
queries: `np.argmin` raises on an empty axis). -/
def listMin : List K → K
  | [] => 0
  | [x] => x
  | x :: y :: t => min x (listMin (y :: t))

/-- Embedding of `np.argmin` over a 1-D array: index of the first occurrence
of the minimal value.  `np.argmin` scans left to right and only replaces the
current best on a strictly smaller value, hence returns the lowest index
attaining the minimum; the recursion below returns 0 as soon as the head is
`≤` the minimum of the tail, which is the same first-occurrence index. -/
def argminIdx : List K → ℕ
  | [] => 0
  | [_] => 0
  | x :: y :: t => if x ≤ listMin (y :: t) then 0 else argminIdx (y :: t) + 1

/-- Squared Euclidean distance between two points (lists of coordinates).
`np.linalg.norm(p - m)` is the square root of this; the square root is
strictly monotone, so comparisons and arg-minima of norms coincide with those
of squared norms (see `sqdist_sqrt_lt_iff`/`sqdist_sqrt_le_iff` below). -/
def sqdist (p q : List K) : K :=
  (List.zipWith (fun a b => (a - b) ^ 2) p q).sum

/-- Embedding of `np.array_split(xs, n)` along axis 0: `n` contiguous chunks,
the first `len % n` of size `len / n + 1` and the rest of size `len / n`.
The recursion takes the first chunk and splits the remainder into `n - 1`
chunks; the arithmetic `(len - s) / (n-1) = len / n` and
`(len - s) % (n-1) = len % n - 1` (when `len % n > 0`, else `0`) makes this
produce exactly numpy's chunk sizes. -/
def arraySplit (xs : List α) : ℕ → List (List α)
  | 0 => []
  | n + 1 =>
    let s := if 0 < xs.length % (n + 1) then xs.length / (n + 1) + 1 else xs.length / (n + 1)
    xs.take s :: arraySplit (xs.drop s) n

/-! ## Lemmas about the helpers -/

theorem listMin_cons (x y : K) (t : List K) :
    listMin (x :: y :: t) = min x (listMin (y :: t)) := rfl

theorem listMin_le {l : List K} {a : K} (ha : a ∈ l) : listMin l ≤ a := by
  induction l with
  | nil => cases ha
  | cons x t ih =>
    cases t with
    | nil =>
      rcases List.mem_singleton.mp ha with rfl
      exact le_rfl
    | cons y t' =>
      rw [listMin_cons]
      rcases List.mem_cons.mp ha with rfl | hmem
      · exact min_le_left _ _
      · exact le_trans (min_le_right _ _) (ih hmem)

theorem listMin_mem : ∀ {l : List K}, l ≠ [] → listMin l ∈ l := by
  intro l
  induction l with
  | nil => intro h; exact absurd rfl h
  | cons x t ih =>
    intro _
    cases t with
    | nil => exact List.mem_singleton.mpr rfl
    | cons y t' =>
      rw [listMin_cons]
      rcases min_cases x (listMin (y :: t')) with ⟨h, _⟩ | ⟨h, _⟩
      · rw [h]; exact List.mem_cons_self _ _
      · rw [h]; exact List.mem_cons_of_mem _ (ih (by simp))

theorem argminIdx_lt_length : ∀ {l : List K}, l ≠ [] → argminIdx l < l.length := by
  intro l
  induction l with
  | nil => intro h; exact absurd rfl h
  | cons x t ih =>
    intro _
    cases t with
    | nil => simp [argminIdx]
    | cons y t' =>
      show argminIdx (x :: y :: t') < (x :: y :: t').length
      rw [argminIdx]
      split
      · simp
      · have := ih (by simp)
        simpa [List.length_cons] using Nat.succ_lt_succ this

theorem get?_argminIdx : ∀ {l : List K}, l ≠ [] →
    l.get? (argminIdx l) = some (listMin l) := by
  intro l
  induction l with
  | nil => intro h; exact absurd rfl h
  | cons x t ih =>
    intro _
    cases t with
    | nil => rfl
    | cons y t' =>
      show (x :: y :: t').get? (argminIdx (x :: y :: t')) = some (listMin (x :: y :: t'))
      rw [argminIdx, listMin_cons]
      split
      · next h => simp [min_eq_left h]
      · next h =>
        have hlt : listMin (y :: t') < x := lt_of_not_le h
        rw [min_eq_right hlt.le]
        simpa using ih (by simp)

theorem lt_of_get?_lt_argminIdx : ∀ {l : List K}, ∀ {j : ℕ} {v : K},
    j < argminIdx l → l.get? j = some v → listMin l < v := by
  intro l
  induction l with
  | nil => intro j v hj hv; simp [argminIdx] at hj
  | cons x t ih =>
    intro j v hj hv
    cases t with
    | nil => simp [argminIdx] at hj
    | cons y t' =>
      rw [argminIdx] at hj
      split at hj
      · exact absurd hj (Nat.not_lt_zero _)
      · next h =>
        have hlt : listMin (y :: t') < x := lt_of_not_le h
        rw [listMin_cons, min_eq_right hlt.le]
        cases j with
        | zero =>
          simp only [List.get?] at hv
          cases hv
          exact hlt
        | succ j' =>
          have hj' : j' < argminIdx (y :: t') := Nat.lt_of_succ_lt_succ hj
          exact ih hj' hv

theorem strideGo_congr_mod (s : ℕ) : ∀ (xs : List α) (i j : ℕ), i % s = j % s →
    strideGo s xs i = strideGo s xs j := by
  intro xs
  induction xs with
  | nil => intro i j _; rfl
  | cons x t ih =>
    intro i j hij
    have h1 : (i + 1) % s = (j + 1) % s := by
      rw [Nat.add_mod i 1 s, Nat.add_mod j 1 s, hij]
    rw [strideGo, strideGo, hij, ih (i + 1) (j + 1) h1]

theorem strideGo_skip (s : ℕ) : ∀ (j : ℕ) (xs : List α) (i : ℕ),
    (∀ t, t < j → (i + t) % s ≠ 0) →
    strideGo s xs i = strideGo s (xs.drop j) (i + j) := by
  intro j
  induction j with
  | zero => intro xs i _; rfl
  | succ j' ih =>
    intro xs i h
    have hi : i % s ≠ 0 := by simpa using h 0 (Nat.succ_pos _)
    cases xs with
    | nil => rw [List.drop_nil]; rfl
    | cons x t =>
      rw [strideGo, if_neg hi, List.drop_succ_cons,
        ih t (i + 1) (fun u hu => by
          have := h (u + 1) (Nat.succ_lt_succ hu)
          simpa [Nat.add_assoc, Nat.add_comm 1 u] using this)]
      ring_nf

theorem ilocStride_cons (s : ℕ) (hs : 0 < s) (x : α) (xs : List α) :
    ilocStride s (x :: xs) = x :: ilocStride s (xs.drop (s - 1)) := by
  rw [ilocStride, strideGo, if_pos (Nat.zero_mod s)]
  congr 1
  rw [strideGo_skip s (s - 1) xs 1 (fun t ht => by
    have h1 : 1 + t < s := by omega
    rw [Nat.mod_eq_of_lt h1]
    omega)]
  have hss : 1 + (s - 1) = s := by omega
  rw [hss]
  exact strideGo_congr_mod s _ s 0 (by simp [Nat.mod_self])

theorem ilocStride_get?_aux (s : ℕ) (hs : 0 < s) :
    ∀ (n : ℕ) (xs : List α), xs.length ≤ n →
      ∀ i, (ilocStride s xs).get? i = xs.get? (i * s) := by
  intro n
  induction n with
  | zero =>
    intro xs hxs i
    rw [List.length_eq_zero.mp (Nat.le_zero.mp hxs)]
    rfl
  | succ n' ih =>
    intro xs hxs i
    cases xs with
    | nil => rfl
    | cons x t =>
      rw [ilocStride_cons s hs]
      cases i with
      | zero => simp
      | succ i' =>
        have hlen : (t.drop (s - 1)).length ≤ n' := by
          have hd : (t.drop (s - 1)).length = t.length - (s - 1) :=
            List.length_drop (s - 1) t
          simp only [List.length_cons] at hxs
          omega
        have hidx : (i' + 1) * s = s - 1 + i' * s + 1 := by
          have h1 : (i' + 1) * s = i' * s + s := Nat.succ_mul i' s
          omega
        rw [List.get?_cons_succ, ih (t.drop (s - 1)) hlen i', List.get?_drop, hidx,
          List.get?_cons_succ]

/-- `xs[::s]` consists exactly of the elements of `xs` at indices `0, s, 2s, …`
in their original order: its `i`-th entry is the `i·s`-th entry of `xs`. -/
theorem ilocStride_get? (s : ℕ) (hs : 0 < s) (xs : List α) (i : ℕ) :
    (ilocStride s xs).get? i = xs.get? (i * s) :=
  ilocStride_get?_aux s hs xs.length xs le_rfl i

/-- Stride 1 keeps the list unchanged. -/
theorem ilocStride_one (xs : List α) : ilocStride 1 xs = xs := by
  apply List.ext_get?
  intro n
  rw [ilocStride_get? 1 Nat.one_pos xs n, Nat.mul_one]

theorem strideGo_map (s : ℕ) (f : α → β) : ∀ (xs : List α) (i : ℕ),
    strideGo s (xs.map f) i = (strideGo s xs i).map f := by
  intro xs
  induction xs with
  | nil => intro i; rfl
  | cons x t ih =>
    intro i
    rw [List.map_cons, strideGo, strideGo]
    by_cases h : i % s = 0
    · rw [if_pos h, if_pos h, List.map_cons, ih]
    · rw [if_neg h, if_neg h, ih]

theorem ilocStride_map (s : ℕ) (f : α → β) (xs : List α) :
    ilocStride s (xs.map f) = (ilocStride s xs).map f :=
  strideGo_map s f xs 0

/-- Concatenating the chunks of `np.array_split(xs, n)` (any `n ≥ 1`) restores
`xs`: the partition is a partition into contiguous chunks in original order. -/
theorem arraySplit_flatten : ∀ (n : ℕ), 0 < n → ∀ (xs : List α),
    (arraySplit xs n).flatten = xs := by
  intro n
  induction n with
  | zero => intro h; exact absurd h (lt_irrefl 0)
  | succ m ih =>
    intro _ xs
    cases m with
    | zero =>
      show (arraySplit xs 1).flatten = xs
      simp [arraySplit, Nat.mod_one, Nat.div_one]
    | succ m' =>
      show (arraySplit xs (m' + 1 + 1)).flatten = xs
      rw [arraySplit]
      simp only [List.flatten_cons]
      rw [ih (Nat.succ_pos m'), List.take_append_drop]

/-! ## Small `get?` helpers for `zip`/`zipWith` -/

theorem zip_get?_some : ∀ (l : List α) (l' : List β) (i : ℕ) (a : α) (b : β),
    l.get? i = some a → l'.get? i = some b → (l.zip l').get? i = some (a, b) := by
  intro l
  induction l with
  | nil => intro l' i a b h _; simp at h
  | cons x t ih =>
    intro l' i a b h h'
    cases l' with
    | nil => simp at h'
    | cons y t' =>
      cases i with
      | zero =>
        simp only [List.get?] at h h'
        cases h; cases h'
        rfl
      | succ i' => exact ih t' i' a b h h'

theorem zip_get?_inv : ∀ (l : List α) (l' : List β) (i : ℕ) (ab : α × β),
    (l.zip l').get? i = some ab → l.get? i = some ab.1 ∧ l'.get? i = some ab.2 := by
  intro l
  induction l with
  | nil => intro l' i ab h; simp [List.zip] at h
  | cons x t ih =>
    intro l' i ab h
    cases l' with
    | nil => simp [List.zip] at h
    | cons y t' =>
      cases i with
      | zero =>
        simp only [List.zip_cons_cons, List.get?] at h
        cases h
        exact ⟨rfl, rfl⟩
      | succ i' => exact ih t' i' ab h

variable {γ : Type}

theorem zipWith_get?_some (f : α → β → γ) : ∀ (l : List α) (l' : List β) (i : ℕ) (a : α) (b : β),
    l.get? i = some a → l'.get? i = some b → (List.zipWith f l l').get? i = some (f a b) := by
  intro l
  induction l with
  | nil => intro l' i a b h _; simp at h
  | cons x t ih =>
    intro l' i a b h h'
    cases l' with
    | nil => simp at h'
    | cons y t' =>
      cases i with
      | zero =>
        simp only [List.get?] at h h'
        cases h; cases h'
        rfl
      | succ i' => exact ih t' i' a b h h'

theorem zipWith_get?_inv (f : α → β → γ) : ∀ (l : List α) (l' : List β) (i : ℕ) (c : γ),
    (List.zipWith f l l').get? i = some c →
    ∃ a b, l.get? i = some a ∧ l'.get? i = some b ∧ c = f a b := by
  intro l
  induction l with
  | nil => intro l' i c h; simp at h
  | cons x t ih =>
    intro l' i c h
    cases l' with
    | nil => simp at h
    | cons y t' =>
      cases i with
      | zero =>
        simp only [List.zipWith_cons_cons, List.get?] at h
        cases h
        exact ⟨x, y, rfl, rfl, rfl⟩
      | succ i' => exact ih t' i' c h

/-! ## Embedding of `Loader._basin_selection` (MD.py lines 279-303)

The method reads `positions = self.KDE.dataset` and evaluates `self.fes`; both
are explicit arguments here.  `self.fes` is vectorized over the rows of its
argument (it is `-kbt * KDE.logpdf`), so evaluating it on a matrix is embedded
as `List.map fes` over the rows. -/

/-- `classes = np.argmin(np.linalg.norm(positions[:,None,:] - minima, axis=2), axis=1)`:
for each sample row, the index of the first minimum at smallest Euclidean
distance.  Distances are compared through their squares (`sqdist`), which has
the same order as `np.linalg.norm` since the square root is strictly
monotone. -/
def classesOf (positions minima : List (List K)) : List ℕ :=
  positions.map (fun p => argminIdx (minima.map (fun m => sqdist p m)))

/-- The FES values of the sample points: `self.fes(positions)` directly, or —
when `memory_saver` — chunkwise over `np.array_split(positions, splits)` and
re-concatenated with `np.hstack`. -/
def fesPtsOf (fes : List K → K) (positions : List (List K))
    (memory_saver : Bool) (splits : ℕ) : List K :=
  if memory_saver then ((arraySplit positions splits).map (List.map fes)).flatten
  else positions.map fes

/-- Embedding of `Loader._basin_selection`: nearest-minimum classes, reference
FES `fes_at_minima[classes]`, strict-cutoff mask, and the output table with one
`(basin, selection)` row per sample. -/
def basinSelection (positions minima : List (List K)) (fes : List K → K)
    (fes_cutoff : K) (memory_saver : Bool) (splits : ℕ) : List (ℕ × Bool) :=
  let classes := classesOf positions minima
  let fes_at_minima := minima.map fes
  let ref_fes := classes.map (fun idx => fes_at_minima.getD idx 0)
  let fes_pts := fesPtsOf fes positions memory_saver splits
  let mask := List.zipWith (fun f r => decide (f - r < fes_cutoff)) fes_pts ref_fes
  List.zip classes mask

theorem classesOf_get? (positions minima : List (List K)) (i : ℕ) (pi : List K)
    (hp : positions.get? i = some pi) :
    (classesOf positions minima).get? i
      = some (argminIdx (minima.map (fun m => sqdist pi m))) := by
  rw [classesOf, List.get?_map, hp, Option.map_some']

theorem length_classesOf (positions minima : List (List K)) :
    (classesOf positions minima).length = positions.length :=
  List.length_map _ _

theorem length_basinSelection (positions minima : List (List K)) (fes : List K → K)
    (fes_cutoff : K) (splits : ℕ) :
    (basinSelection positions minima fes fes_cutoff false splits).length
      = positions.length := by
  simp [basinSelection, fesPtsOf, classesOf]

theorem sqdist_nonneg : ∀ (p q : List K), 0 ≤ sqdist p q := by
  intro p
  induction p with
  | nil => intro q; simp [sqdist]
  | cons a t ih =>
    intro q
    cases q with
    | nil => simp [sqdist]
    | cons b t' =>
      rw [sqdist, List.zipWith_cons_cons, List.sum_cons]
      exact add_nonneg (sq_nonneg _) (ih t')

/-- `np.linalg.norm` is the square root of `sqdist`; comparing norms is the
same as comparing squared norms, so nearest-by-norm = nearest-by-`sqdist`. -/
theorem sqrt_sqdist_le_iff (p q r : List ℝ) :
    Real.sqrt (sqdist p q) ≤ Real.sqrt (sqdist p r) ↔ sqdist p q ≤ sqdist p r :=
  Real.sqrt_le_sqrt_iff (sqdist_nonneg p r)

theorem sqrt_sqdist_lt_iff (p q r : List ℝ) :
    Real.sqrt (sqdist p q) < Real.sqrt (sqdist p r) ↔ sqdist p q < sqdist p r :=
  Real.sqrt_lt_sqrt_iff (sqdist_nonneg p q)

/-! ## Claim theorems about basin assignment and selection -/

/-- C2: for every non-empty ordered minima set and every sample point
(`positions.get? i = some pi`), basin assignment gives the sample exactly one
basin index in `[0, N_minima)`, namely the index of the minimum at smallest
Euclidean distance (distances compared via `sqdist`, the squared Euclidean
distance, which orders exactly like `np.linalg.norm` by
`sqrt_sqdist_le_iff`/`sqrt_sqdist_lt_iff`), with ties broken in favour of the
lowest index. -/
theorem basin_assignment_nearest_lowest (positions minima : List (List K))
    (fes : List K → K) (fes_cutoff : K) (splits : ℕ)
    (hm : minima ≠ []) (i : ℕ) (pi : List K)
    (hp : positions.get? i = some pi) :
    (basinSelection positions minima fes fes_cutoff false splits).length
        = positions.length ∧
    ∃ b sel mb,
      (basinSelection positions minima fes fes_cutoff false splits).get? i
          = some (b, sel) ∧
      b < minima.length ∧ minima.get? b = some mb ∧
      (∀ j mj, minima.get? j = some mj → sqdist pi mb ≤ sqdist pi mj) ∧
      (∀ j mj, j < b → minima.get? j = some mj → sqdist pi mb < sqdist pi mj) := by
  refine ⟨length_basinSelection positions minima fes fes_cutoff splits, ?_⟩
  have hn : minima.map (fun m => sqdist pi m) ≠ [] := by
    simpa using hm
  set norms := minima.map (fun m => sqdist pi m) with hnorms
  set b := argminIdx norms with hbdef
  have hb : b < norms.length := argminIdx_lt_length hn
  have hbl : b < minima.length := by
    simpa [hnorms] using hb
  have hgetb : norms.get? b = some (listMin norms) := get?_argminIdx hn
  have hmb : minima.get? b = some (minima.get ⟨b, hbl⟩) := List.get?_eq_get hbl
  set mb := minima.get ⟨b, hbl⟩ with hmbdef
  have hnormb : norms.get? b = some (sqdist pi mb) := by
    rw [hnorms, List.get?_map, hmb, Option.map_some']
  have hval : listMin norms = sqdist pi mb := by
    have := hgetb.symm.trans hnormb
    exact Option.some.inj this
  -- entries of the output row
  have hclass : (classesOf positions minima).get? i = some b :=
    classesOf_get? positions minima i pi hp
  have hfespt : (fesPtsOf fes positions false splits).get? i = some (fes pi) := by
    rw [fesPtsOf, if_neg (by simp), List.get?_map, hp, Option.map_some']
  have href : ((classesOf positions minima).map
      (fun idx => (minima.map fes).getD idx 0)).get? i
        = some ((minima.map fes).getD b 0) := by
    rw [List.get?_map, hclass, Option.map_some']
  have hmask : (List.zipWith (fun f r => decide (f - r < fes_cutoff))
      (fesPtsOf fes positions false splits)
      ((classesOf positions minima).map (fun idx => (minima.map fes).getD idx 0))).get? i
        = some (decide (fes pi - (minima.map fes).getD b 0 < fes_cutoff)) :=
    zipWith_get?_some _ _ _ i _ _ hfespt href
  refine ⟨b, decide (fes pi - (minima.map fes).getD b 0 < fes_cutoff), mb, ?_, hbl, hmb, ?_, ?_⟩
  · show (basinSelection positions minima fes fes_cutoff false splits).get? i = _
    simp only [basinSelection]
    exact zip_get?_some _ _ i _ _ hclass hmask
  · intro j mj hj
    have hjn : norms.get? j = some (sqdist pi mj) := by
      rw [hnorms, List.get?_map, hj, Option.map_some']
    have hmem : sqdist pi mj ∈ norms := List.get?_mem hjn
    have := listMin_le hmem
    rw [hval] at this
    exact this
  · intro j mj hjb hj
    have hjn : norms.get? j = some (sqdist pi mj) := by
      rw [hnorms, List.get?_map, hj, Option.map_some']
    have := lt_of_get?_lt_argminIdx (l := norms) hjb hjn
    rw [hval] at this
    exact this

theorem basin_assignment_nearest_lowest_witness :
    (([[0, 0], [3, 4]] : List (List ℚ)) ≠ []) ∧
    (([[3, 4], [0, 1]] : List (List ℚ)).get? 0 = some [3, 4]) ∧
    ((basinSelection [[3, 4], [0, 1]] [[0, 0], [3, 4]]
        (fun p => p.sum) (10 : ℚ) false 1).length = 2 ∧
      ∃ b sel mb,
        (basinSelection [[3, 4], [0, 1]] [[0, 0], [3, 4]]
            (fun p => p.sum) (10 : ℚ) false 1).get? 0 = some (b, sel) ∧
        b < 2 ∧ ([[0, 0], [3, 4]] : List (List ℚ)).get? b = some mb ∧
        (∀ j mj, ([[0, 0], [3, 4]] : List (List ℚ)).get? j = some mj →
          sqdist [3, 4] mb ≤ sqdist [3, 4] mj) ∧
        (∀ j mj, j < b → ([[0, 0], [3, 4]] : List (List ℚ)).get? j = some mj →
          sqdist [3, 4] mb < sqdist [3, 4] mj)) :=
  ⟨List.cons_ne_nil _ _, rfl, by
    have h := basin_assignment_nearest_lowest
      (K := ℚ) [[3, 4], [0, 1]] [[0, 0], [3, 4]] (fun p => p.sum) 10 1
      (List.cons_ne_nil _ _) 0 [3, 4] rfl
    simpa using h⟩

/-- C3: for every sample point, the selection flag is true iff
`FES(sample) - FES(minimum of the sample's assigned basin) < cutoff` (strict
inequality, reference taken exactly at the assigned basin's own minimum);
samples exceeding the cutoff remain in the output as unselected rows, and the
output has one `(basin, selected)` pair per sample in the same order as the
input samples. -/
theorem basin_selection_strict_cutoff (positions minima : List (List K))
    (fes : List K → K) (fes_cutoff : K) (splits : ℕ) (hm : minima ≠ []) :
    (basinSelection positions minima fes fes_cutoff false splits).length
        = positions.length ∧
    ∀ i pi b sel, positions.get? i = some pi →
      (basinSelection positions minima fes fes_cutoff false splits).get? i
          = some (b, sel) →
      ∃ mb, minima.get? b = some mb ∧
        (sel = true ↔ fes pi - fes mb < fes_cutoff) := by
  refine ⟨length_basinSelection positions minima fes fes_cutoff splits, ?_⟩
  intro i pi b sel hp hout
  simp only [basinSelection] at hout
  obtain ⟨hcl, hmask⟩ := zip_get?_inv _ _ i (b, sel) hout
  have hclass : (classesOf positions minima).get? i
      = some (argminIdx (minima.map (fun m => sqdist pi m))) :=
    classesOf_get? positions minima i pi hp
  have hb : b = argminIdx (minima.map (fun m => sqdist pi m)) :=
    Option.some.inj ((hclass.symm.trans hcl).symm)
  have hn : minima.map (fun m => sqdist pi m) ≠ [] := by simpa using hm
  have hbl : b < minima.length := by
    have := argminIdx_lt_length hn
    rw [← hb] at this
    simpa using this
  have hmb : minima.get? b = some (minima.get ⟨b, hbl⟩) := List.get?_eq_get hbl
  set mb := minima.get ⟨b, hbl⟩ with hmbdef
  refine ⟨mb, hmb, ?_⟩
  obtain ⟨f, r, hf, hr, hsel⟩ := zipWith_get?_inv _ _ _ i sel hmask
  have hfes : f = fes pi := by
    rw [fesPtsOf, if_neg (by simp), List.get?_map, hp, Option.map_some'] at hf
    exact (Option.some.inj hf).symm
  have hrr : r = fes mb := by
    rw [List.get?_map, hcl, Option.map_some'] at hr
    have hgd : ((minima.map fes).getD b 0) = fes mb := by
      have : (minima.map fes).get? b = some (fes mb) := by
        rw [List.get?_map, hmb, Option.map_some']
      rw [List.getD_eq_get?, this, Option.getD_some]
    have := Option.some.inj hr
    rw [← this, hgd]
  subst hsel
  rw [hfes, hrr]
  exact decide_eq_true_iff

theorem basin_selection_strict_cutoff_witness :
    (([[0]] : List (List ℚ)) ≠ []) ∧
    ((basinSelection [[0], [5]] [[0]] (fun p => p.sum) (3 : ℚ) false 1).length = 2 ∧
      ∀ i pi b sel, ([[0], [5]] : List (List ℚ)).get? i = some pi →
        (basinSelection [[0], [5]] [[0]] (fun p => p.sum) (3 : ℚ) false 1).get? i
            = some (b, sel) →
        ∃ mb, ([[0]] : List (List ℚ)).get? b = some mb ∧
          (sel = true ↔ pi.sum - mb.sum < 3)) :=
  ⟨List.cons_ne_nil _ _, by
    have h := basin_selection_strict_cutoff (K := ℚ)
      [[0], [5]] [[0]] (fun p => p.sum) 3 1 (List.cons_ne_nil _ _)
    simpa using h⟩

/-- C4: for every sample set, minima set, FES function, cutoff and every
`splits` in `[1, N_samples]`, running basin selection with `memory_saver`
(samples partitioned into `splits` contiguous chunks, FES evaluated per chunk,
results concatenated in original order) yields exactly the same basin indices
and selection flags as the unbatched evaluation (for any `splits'`, which the
unbatched path ignores). -/
theorem memory_saver_equivalent (positions minima : List (List K))
    (fes : List K → K) (fes_cutoff : K) (splits splits' : ℕ)
    (h1 : 1 ≤ splits) (h2 : splits ≤ positions.length) :
    basinSelection positions minima fes fes_cutoff true splits
      = basinSelection positions minima fes fes_cutoff false splits' := by
  have hfp : fesPtsOf fes positions true splits
      = fesPtsOf fes positions false splits' := by
    rw [fesPtsOf, fesPtsOf, if_pos rfl, if_neg (by simp)]
    rw [← List.map_flatten, arraySplit_flatten splits h1]
  simp only [basinSelection]
  rw [hfp]

theorem memory_saver_equivalent_witness :
    1 ≤ 2 ∧ 2 ≤ ([[0], [1], [4]] : List (List ℚ)).length ∧
    basinSelection [[0], [1], [4]] [[0], [4]] (fun p => p.sum) (2 : ℚ) true 2
      = basinSelection [[0], [1], [4]] [[0], [4]] (fun p => p.sum) (2 : ℚ) false 50 :=
  ⟨by decide, by decide,
    memory_saver_equivalent [[0], [1], [4]] [[0], [4]] (fun p => p.sum) 2 2 50
      (by decide) (by decide)⟩

/-- C6: for fixed samples, minima and FES function, the set of selected
samples is monotone non-decreasing in the cutoff: whenever `c1 ≤ c2`, a sample
selected at cutoff `c1` (row `(b, true)`) is also selected — with the same
basin — at cutoff `c2`. -/
theorem selection_monotone_in_cutoff (positions minima : List (List K))
    (fes : List K → K) (c1 c2 : K) (memory_saver : Bool) (splits : ℕ)
    (h12 : c1 ≤ c2) (i b : ℕ)
    (hsel : (basinSelection positions minima fes c1 memory_saver splits).get? i
      = some (b, true)) :
    (basinSelection positions minima fes c2 memory_saver splits).get? i
      = some (b, true) := by
  simp only [basinSelection] at hsel ⊢
  obtain ⟨hcl, hmask⟩ := zip_get?_inv _ _ i (b, true) hsel
  obtain ⟨f, r, hf, hr, htrue⟩ := zipWith_get?_inv _ _ _ i true hmask
  have hlt : f - r < c1 := of_decide_eq_true htrue.symm
  have hlt2 : f - r < c2 := lt_of_lt_of_le hlt h12
  have hmask2 := zipWith_get?_some
    (fun f r => decide (f - r < c2)) _ _ i f r hf hr
  have hd : decide (f - r < c2) = true := decide_eq_true hlt2
  simp only [hd] at hmask2
  exact zip_get?_some _ _ i b true hcl hmask2

theorem selection_monotone_in_cutoff_witness :
    (1 : ℚ) ≤ 2 ∧
    (basinSelection [[0]] [[0]] (fun p => p.sum) (1 : ℚ) false 1).get? 0
      = some (0, true) ∧
    (basinSelection [[0]] [[0]] (fun p => p.sum) (2 : ℚ) false 1).get? 0
      = some (0, true) :=
  ⟨by norm_num, by with_unfolding_all decide,
    selection_monotone_in_cutoff [[0]] [[0]] (fun p => p.sum) 1 2 false 1
      (by norm_num) 0 0 (by with_unfolding_all decide)⟩

/-! ## Embedding of the `Loader` pipeline (MD.py lines 30-233, 279-303)

`pandas.DataFrame`s are embedded as a column-name list plus a row-major list
of rows.  The helper modules `stateinterpreter.io` (`load_dataframe`) and
`stateinterpreter.numerical_utils` (`gaussian_kde`, `local_minima`) are not
among the given sources; they are modelled from the spec where marked. -/

structure DataFrame (K : Type) where
  cols : List String
  rows : List (List K)
  deriving DecidableEq

/-- `df.drop(name, axis="columns")` (line 72): remove the named column and,
in every row, the entry at that column's position. -/
def dropColumn (name : String) (df : DataFrame K) : DataFrame K :=
  ⟨df.cols.filter (fun c => c ≠ name),
   df.rows.map (fun r => ((df.cols.zip r).filter (fun cr => cr.1 ≠ name)).map Prod.snd)⟩

/-- `df[name].values` for a single column name: the 1-D values of that pandas
`Series`, or a `KeyError` (`Option.none`) when the column is absent. -/
def colValues (df : DataFrame K) (name : String) : Option (List K) :=
  if name ∈ df.cols then
    Option.some (df.rows.map (fun r => r.getD (df.cols.indexOf name) 0))
  else Option.none

/-- `df[names].to_numpy()` (line 230): the rows projected to the named
columns, in the order the names are given. -/
def selectColumns (df : DataFrame K) (names : List String) : List (List K) :=
  df.rows.map (fun r => names.map (fun n => r.getD (df.cols.indexOf n) 0))

/-- A numpy array as far as `identify_states` consults it: its number of
dimensions `ndim` and its (flattened) data. -/
structure PyArray (K : Type) where
  ndim : ℕ
  data : List K
  deriving DecidableEq

/-- The possible Python values of the `logweights` argument: `None`, a column
name, a `pandas.DataFrame`, a `numpy.ndarray`, or any other object
(`other`). -/
inductive LogWeights (K : Type) where
  | none
  | str (s : String)
  | df (d : DataFrame K)
  | arr (a : PyArray K)
  | other

/-- Errors of the pipeline.  `TypeError`, `ValueError`, `KeyError` and
`AssertionError` are the Python exception classes raised in `MD.py`;
`NoMinimaFoundError` is the spec's name (§4.2/§7) for the failure of the
minima finder (`numerical_utils`, not among the given sources);
`PreconditionError` is the spec's taxonomy name (§7) for the
dependency-not-run check — the source raises a Python `KeyError` with message
"Basins not selected" at that site (lines 203-204). -/
inductive Err where
  | TypeError
  | ValueError
  | KeyError
  | AssertionError
  | NoMinimaFoundError
  | PreconditionError
  deriving DecidableEq

/-- The fitted state of `numerical_utils.gaussian_kde`.  Modelled from the
spec: §4.1 — the estimator owns the fitted point set and the (optional,
`None` = uniform) weights; its numerical internals (bandwidth matrix,
normalization) are abstracted by the `logdensityOf` functional below. -/
structure GaussianKDE (K : Type) where
  dataset : List (List K)
  weights : Option (List K)
  deriving DecidableEq

/-- Modelled from the spec: the `gaussian_kde` constructor of
`numerical_utils` (not among the given sources) fits the estimator on a point
set with optional weights (`None` = uniform weights). -/
def gaussian_kde (dataset : List (List K)) (weights : Option (List K)) :
    GaussianKDE K :=
  ⟨dataset, weights⟩

/-- `GaussianKDE.logpdf`.  Modelled from the spec: §4.1 — `log_density`
evaluates the fitted weighted-Gaussian-mixture density in natural-log space.
The mixture's numerics live in `numerical_utils` (not among the given
sources), so the log-density is abstracted as a functional `logdensityOf` of
the fitted state `(dataset, weights)` — all that `MD.py` observes. -/
def GaussianKDE.logpdf (logdensityOf : List (List K) → Option (List K) → List K → K)
    (kde : GaussianKDE K) (x : List K) : K :=
  logdensityOf kde.dataset kde.weights x

/-- The attributes of a `Loader` object relevant to the numerical pipeline.
Attributes that Python creates only later (`selected_cvs`, `KDE`, `fes`,
`minima`, `basins`) are `Option`s initialized to `none` (lines 84-86; the
others are created by `identify_states`).  The mdtraj trajectory (`traj`) and
the descriptor-computation helpers are feature extraction outside the spec's
core and are not modelled. -/
structure Loader (K : Type) where
  colvar : DataFrame K
  descriptors : Option (DataFrame K)
  kbt : K
  stride : ℕ
  selected_cvs : Option (List String)
  KDE : Option (GaussianKDE K)
  fes : Option (List K → K)
  minima : Option (List (List K))
  basins : Option (List (ℕ × Bool))

/-- The default of the `kbt` parameter of `Loader.__init__`: `2.5`. -/
def kbt_default : K := 5 / 2

/-- Embedding of `Loader.__init__` (lines 31-86).  `load_dataframe`
(`stateinterpreter.io`, not among the given sources) parses files or passes
loaded tables through; per spec §6 the pipeline consumes already-loaded
numeric tables, so the embedding takes the loaded `DataFrame`s directly.
Both tables are strided with `.iloc[::stride]`; a `"time"` column of the
descriptors is dropped; `assert len(colvar) == len(descriptors)` raises
`AssertionError` on mismatch (lines 75-77). -/
def Loader.init (colvar : DataFrame K) (descriptors : Option (DataFrame K))
    (kbt : K) (stride : ℕ) : Except Err (Loader K) :=
  let cv : DataFrame K := ⟨colvar.cols, ilocStride stride colvar.rows⟩
  match descriptors with
  | Option.none =>
    Except.ok ⟨cv, Option.none, kbt, stride,
      Option.none, Option.none, Option.none, Option.none, Option.none⟩
  | Option.some d0 =>
    let d1 : DataFrame K := ⟨d0.cols, ilocStride stride d0.rows⟩
    let d2 := if "time" ∈ d1.cols then dropColumn "time" d1 else d1
    if cv.rows.length = d2.rows.length then
      Except.ok ⟨cv, Option.some d2, kbt, stride,
        Option.none, Option.none, Option.none, Option.none, Option.none⟩
    else Except.error Err.AssertionError

/-- Logweight validation of `identify_states` (lines 143-161).  For a string,
`w` is the 1-D values of the named colvar column (missing column: pandas
`KeyError`); for a `DataFrame`, `logweights.values` is always 2-D, so `ndim`
is 2; for an `ndarray`, the array's own `ndim`; any other non-`None` value
raises `TypeError`; after extraction, `w.ndim != 1` raises `ValueError`.
(The extracted `w` is never used afterwards — see
`fes_ignores_logweights`.) -/
def validate_logweights (colvar : DataFrame K) : LogWeights K → Except Err Unit
  | .none => Except.ok ()
  | .str s =>
    match colValues colvar s with
    | Option.none => Except.error Err.KeyError
    | Option.some col =>
      if (PyArray.mk 1 col).ndim ≠ 1 then Except.error Err.ValueError else Except.ok ()
  | .df d =>
    if (PyArray.mk 2 d.rows.flatten).ndim ≠ 1 then Except.error Err.ValueError
    else Except.ok ()
  | .arr a => if a.ndim ≠ 1 then Except.error Err.ValueError else Except.ok ()
  | .other => Except.error Err.TypeError

/-- Embedding of `Loader.approximate_FES` (lines 215-233): fits
`self.KDE = gaussian_kde(empirical_centers)` — the call passes no weights and
no bandwidth; the `bw_method` and `logweights` parameters are accepted but
unused — and stores `self.fes = lambda X: -self.kbt * self.KDE.logpdf(X)`. -/
def approximate_FES (logdensityOf : List (List K) → Option (List K) → List K → K)
    (L : Loader K) (collective_vars : List String)
    (bw_method : Option K) (logweights : LogWeights K) : Loader K :=
  let empirical_centers := selectColumns L.colvar collective_vars
  let kde := gaussian_kde empirical_centers Option.none
  { L with KDE := Option.some kde,
           fes := Option.some (fun X => -L.kbt * kde.logpdf logdensityOf X) }

/-- `numerical_utils.local_minima`.  Modelled from the spec: the module is
not among the given sources; §4.2 — the finder returns the ordered minima its
optimizer locates within the bounds and fails with `NoMinimaFoundError` if
zero minima are located.  The numerical search itself is abstracted as the
functional `optimizerFind` giving the located minima. -/
def local_minima (optimizerFind : (List K → K) → List (K × K) → List (List K))
    (f : List K → K) (bounds : List (K × K)) : Except Err (List (List K)) :=
  let found := optimizerFind f bounds
  if found.isEmpty then Except.error Err.NoMinimaFoundError else Except.ok found

/-- The FES closure produced by `approximate_FES` (total accessor for the
`some` value it stores). -/
def fesOf (logdensityOf : List (List K) → Option (List K) → List K → K)
    (L : Loader K) (collective_vars : List String) (logweights : LogWeights K) :
    List K → K :=
  (approximate_FES logdensityOf L collective_vars Option.none logweights).fes.getD
    (fun _ => 0)

/-- Embedding of `Loader.identify_states` (lines 132-182): validate
`logweights`, store `selected_cvs`, fit the FES (`approximate_FES` with
`bw_method=None`), locate minima (`local_minima`), and assign basins
(`_basin_selection` on the fitted `KDE.dataset`).  Errors are returned as
`Except.error`: every raise in the source happens before any of
`selected_cvs`, `KDE`, `fes`, `minima`, `basins` is (re)assigned at that
point of the pipeline, so an error leaves the state unchanged. -/
def identify_states (logdensityOf : List (List K) → Option (List K) → List K → K)
    (optimizerFind : (List K → K) → List (K × K) → List (List K))
    (L : Loader K) (selected_cvs : List String) (bounds : List (K × K))
    (logweights : LogWeights K) (fes_cutoff : K) (memory_saver : Bool)
    (splits : ℕ) : Except Err (Loader K) :=
  (validate_logweights L.colvar logweights).bind (fun _ =>
    let L1 := { L with selected_cvs := Option.some selected_cvs }
    let L2 := approximate_FES logdensityOf L1 selected_cvs Option.none logweights
    let fes := L2.fes.getD (fun _ => 0)
    let dataset := (L2.KDE.map GaussianKDE.dataset).getD []
    (local_minima optimizerFind fes bounds).bind (fun minima =>
      Except.ok { L2 with
        minima := Option.some minima,
        basins := Option.some
          (basinSelection dataset minima fes fes_cutoff memory_saver splits) }))

/-- The output of `collect_data` (lines 184-213): `pd.concat(axis=1)` of the
(possibly CV-restricted) colvar table, the basins table (`basin`,`selection`
columns) and the descriptor table; embedded as the triple of the three
column-blocks in concatenation order. -/
structure LabeledData (K : Type) where
  colvar : DataFrame K
  basins : List (ℕ × Bool)
  descriptors : Option (DataFrame K)

/-- Embedding of `Loader.collect_data` (lines 184-213): fails fast when
`self.basins is None` — the source raises Python
`KeyError("Basins not selected. Call identify_states() first.")`, the
condition the spec taxonomy (§7) names `PreconditionError` — and otherwise
returns the concatenated dataset. -/
def collect_data (L : Loader K) (only_selected_cvs : Bool) :
    Except Err (LabeledData K) :=
  match L.basins with
  | Option.none => Except.error Err.PreconditionError
  | Option.some bs =>
    let names := L.selected_cvs.getD []
    let cv := if only_selected_cvs then
        (⟨names, selectColumns L.colvar names⟩ : DataFrame K)
      else L.colvar
    Except.ok ⟨cv, bs, L.descriptors⟩

/-! ## Claim theorems about the pipeline -/

/-- C1 (code bug): `approximate_FES` ignores its `logweights` (and
`bw_method`) arguments entirely — line 231 calls `gaussian_kde(empirical_centers)`
with no weights — so the fitted density is always the uniform-weight fit and
can never depend on the supplied weights, contradicting the claim (and the
spec §1/§4.1 and the function's own docstring).  Conjuncts: (1) the call
result is identical to the call with `logweights=None`; (2) the stored KDE is
the uniform fit; (3) for any `logweights` accepted by validation, the entire
`identify_states` pipeline output equals the run with `logweights=None`. -/
theorem fes_ignores_logweights
    (lg : List (List K) → Option (List K) → List K → K)
    (optF : (List K → K) → List (K × K) → List (List K))
    (L : Loader K) (cvs : List String) (bw : Option K) (lw : LogWeights K)
    (bounds : List (K × K)) (cutoff : K) (ms : Bool) (splits : ℕ) :
    approximate_FES lg L cvs bw lw
        = approximate_FES lg L cvs Option.none LogWeights.none ∧
    (approximate_FES lg L cvs bw lw).KDE
        = Option.some (gaussian_kde (selectColumns L.colvar cvs) Option.none) ∧
    (validate_logweights L.colvar lw = Except.ok () →
      identify_states lg optF L cvs bounds lw cutoff ms splits
        = identify_states lg optF L cvs bounds LogWeights.none cutoff ms splits) := by
  refine ⟨rfl, rfl, fun hval => ?_⟩
  simp only [identify_states]
  rw [hval]
  rfl

/-- C5: after fitting, the exposed FES satisfies
`FES(x) = -kT * log(density(x))` for every query point, where `density` is
the fitted KDE (over the selected colvar columns, with no weights — see
`fes_ignores_logweights`) and `kT` is the `kbt` stored at construction,
whose default is 2.5.  The natural-log relation between `logpdf` and the
density is modelled from the spec (§4.1: `log_density` is the density in
natural-log space; `numerical_utils` is not among the given sources): the
abstract log-density is instantiated as `log ∘ densityOf` for an arbitrary
density functional. -/
theorem fes_is_neg_kbt_log_density
    (densityOf : List (List ℝ) → Option (List ℝ) → List ℝ → ℝ)
    (L : Loader ℝ) (cvs : List String) (bw : Option ℝ) (lw : LogWeights ℝ)
    (cv : DataFrame ℝ) (ds : Option (DataFrame ℝ)) (s : ℕ) (L0 : Loader ℝ)
    (h : Loader.init cv ds kbt_default s = Except.ok L0) :
    (approximate_FES (fun dset w q => Real.log (densityOf dset w q)) L cvs bw lw).fes
        = Option.some (fun x =>
            -L.kbt * Real.log
              (densityOf (selectColumns L.colvar cvs) Option.none x)) ∧
    L0.kbt = kbt_default ∧ (kbt_default : ℝ) = 2.5 := by
  refine ⟨rfl, ?_, by norm_num [kbt_default]⟩
  cases ds with
  | none =>
    simp only [Loader.init] at h
    cases h
    rfl
  | some d0 =>
    simp only [Loader.init] at h
    split at h <;> split at h <;>
      first
        | (cases h; rfl)
        | cases h

/-- C7 (spec-modelled: `local_minima` lives in `numerical_utils`, not among
the given sources; per §4.2 it fails with `NoMinimaFoundError` when zero
minima are located): whenever the located minima set is empty, `identify_states`
fails with exactly `NoMinimaFoundError` — propagated unchanged through the
pipeline — so basin assignment returns no result and raises no different
error, and no basins are assigned. -/
theorem empty_minima_propagates_error
    (lg : List (List K) → Option (List K) → List K → K)
    (optF : (List K → K) → List (K × K) → List (List K))
    (L : Loader K) (cvs : List String) (bounds : List (K × K))
    (lw : LogWeights K) (cutoff : K) (ms : Bool) (splits : ℕ)
    (hval : validate_logweights L.colvar lw = Except.ok ())
    (hempty : optF (fesOf lg { L with selected_cvs := Option.some cvs } cvs lw)
        bounds = []) :
    identify_states lg optF L cvs bounds lw cutoff ms splits
      = Except.error Err.NoMinimaFoundError := by
  simp only [fesOf] at hempty
  simp only [identify_states, local_minima]
  rw [hval]
  simp only [Except.bind]
  rw [hempty]
  simp [Except.bind]

/-- C8: requesting the labeled output dataset before `identify_states` has
assigned basins (`self.basins is None`, its value from construction) fails
fast with the precondition error (the source raises Python
`KeyError("Basins not selected. Call identify_states() first.")`, named
`PreconditionError` in the spec's taxonomy §7) and produces no partial
result; and every freshly constructed `Loader` has `basins = None`. -/
theorem collect_before_identify_fails (L : Loader K) (b : Bool)
    (h : L.basins = Option.none) :
    collect_data L b = Except.error Err.PreconditionError ∧
    ∀ (cv : DataFrame K) (ds : Option (DataFrame K)) (kbt : K) (s : ℕ)
      (L0 : Loader K), Loader.init cv ds kbt s = Except.ok L0 →
        L0.basins = Option.none := by
  constructor
  · simp [collect_data, h]
  · intro cv ds kbt s L0 h0
    cases ds with
    | none =>
      simp only [Loader.init] at h0
      cases h0
      rfl
    | some d0 =>
      simp only [Loader.init] at h0
      split at h0 <;> split at h0 <;>
        first
          | (cases h0; rfl)
          | cases h0

/-- A concrete loader state over `ℚ` used by the witnesses below. -/
def sampleLoader : Loader ℚ :=
  { colvar := ⟨["x"], [[0], [1]]⟩, descriptors := Option.none, kbt := 1,
    stride := 1, selected_cvs := Option.none, KDE := Option.none,
    fes := Option.none, minima := Option.none, basins := Option.none }

theorem fes_ignores_logweights_witness :
    validate_logweights sampleLoader.colvar (LogWeights.arr ⟨1, [0, 10]⟩)
        = Except.ok () ∧
    identify_states (fun _ _ _ => (0 : ℚ)) (fun _ _ => [[0]]) sampleLoader
        ["x"] [] (LogWeights.arr ⟨1, [0, 10]⟩) 5 false 50
      = identify_states (fun _ _ _ => (0 : ℚ)) (fun _ _ => [[0]]) sampleLoader
        ["x"] [] LogWeights.none 5 false 50 :=
  ⟨rfl,
    (fes_ignores_logweights (fun _ _ _ => (0 : ℚ)) (fun _ _ => [[0]])
      sampleLoader ["x"] Option.none (LogWeights.arr ⟨1, [0, 10]⟩)
      [] 5 false 50).2.2 rfl⟩

theorem fes_is_neg_kbt_log_density_witness :
    Loader.init (⟨["x"], [[0]]⟩ : DataFrame ℝ) Option.none kbt_default 1
        = Except.ok
          ({ colvar := ⟨["x"], [[0]]⟩, descriptors := Option.none,
             kbt := kbt_default, stride := 1, selected_cvs := Option.none,
             KDE := Option.none, fes := Option.none, minima := Option.none,
             basins := Option.none } : Loader ℝ) ∧
    ({ colvar := ⟨["x"], [[0]]⟩, descriptors := Option.none,
       kbt := kbt_default, stride := 1, selected_cvs := Option.none,
       KDE := Option.none, fes := Option.none, minima := Option.none,
       basins := Option.none } : Loader ℝ).kbt = kbt_default ∧
    (kbt_default : ℝ) = 2.5 :=
  ⟨rfl,
    (fes_is_neg_kbt_log_density (fun _ _ _ => 0)
      { colvar := ⟨["x"], [[0]]⟩, descriptors := Option.none,
        kbt := kbt_default, stride := 1, selected_cvs := Option.none,
        KDE := Option.none, fes := Option.none, minima := Option.none,
        basins := Option.none } [] Option.none
      LogWeights.none ⟨["x"], [[0]]⟩ Option.none 1 _ rfl).2⟩

theorem empty_minima_propagates_error_witness :
    validate_logweights sampleLoader.colvar LogWeights.none = Except.ok () ∧
    (fun _ _ => ([] : List (List ℚ)))
        (fesOf (fun _ _ _ => (0 : ℚ))
          { sampleLoader with selected_cvs := Option.some ["x"] } ["x"]
          LogWeights.none)
        ([] : List (ℚ × ℚ)) = [] ∧
    identify_states (fun _ _ _ => (0 : ℚ)) (fun _ _ => [])
        sampleLoader ["x"] [] LogWeights.none 5 false 50
      = Except.error Err.NoMinimaFoundError :=
  ⟨rfl, rfl,
    empty_minima_propagates_error (fun _ _ _ => (0 : ℚ)) (fun _ _ => [])
      sampleLoader ["x"] [] LogWeights.none 5 false 50 rfl rfl⟩

theorem collect_before_identify_fails_witness :
    sampleLoader.basins = Option.none ∧
    collect_data sampleLoader false = Except.error Err.PreconditionError :=
  ⟨rfl, (collect_before_identify_fails sampleLoader false rfl).1⟩

/-- C9 counterexample: at stride 1 with a descriptor table that has a
`"time"` column, the stored descriptor table does NOT consist of the rows of
the loaded input (stride 1 does not keep the descriptor rows unchanged): the
`"time"` entries are removed from every row (line 72 of `MD.py`). -/
theorem stride_rows_counterexample :
    Loader.init (⟨["x"], [[0], [1]]⟩ : DataFrame ℚ)
        (Option.some ⟨["time", "d1"], [[0, 7], [1, 8]]⟩) 1 1
      = Except.ok
        { colvar := ⟨["x"], [[0], [1]]⟩,
          descriptors := Option.some ⟨["d1"], [[7], [8]]⟩, kbt := 1,
          stride := 1, selected_cvs := Option.none, KDE := Option.none,
          fes := Option.none, minima := Option.none,
          basins := Option.none } ∧
    ([[7], [8]] : List (List ℚ)) ≠ [[0, 7], [1, 8]] :=
  ⟨rfl, by decide⟩

/-- C9 (amended): for every positive stride `s`, the stored colvar table
consists of every `s`-th row of the loaded input starting from the first row,
in original order (stride 1 keeps all colvar rows unchanged), and the stored
descriptor table consists of every `s`-th row of the loaded descriptor input
with the `"time"` column (when present) removed from each kept row. -/
theorem stride_rows_amended (cv : DataFrame K) (ds : Option (DataFrame K))
    (kbt : K) (s : ℕ) (hs : 0 < s) (L0 : Loader K)
    (h : Loader.init cv ds kbt s = Except.ok L0) :
    (∀ i, L0.colvar.rows.get? i = cv.rows.get? (i * s)) ∧
    (s = 1 → L0.colvar.rows = cv.rows) ∧
    ∀ d0, ds = Option.some d0 →
      ∃ dd, L0.descriptors = Option.some dd ∧
        ∀ i, dd.rows.get? i
          = ((if "time" ∈ d0.cols then dropColumn "time" d0 else d0).rows).get?
              (i * s) := by
  cases ds with
  | none =>
    simp only [Loader.init] at h
    cases h
    refine ⟨fun i => ilocStride_get? s hs cv.rows i, fun hs1 => ?_, ?_⟩
    · subst hs1
      exact ilocStride_one cv.rows
    · intro d0 hd
      exact Option.noConfusion hd
  | some d0 =>
    simp only [Loader.init] at h
    split at h
    · next htime =>
      split at h
      · cases h
        refine ⟨fun i => ilocStride_get? s hs cv.rows i, fun hs1 => ?_, ?_⟩
        · subst hs1
          exact ilocStride_one cv.rows
        · intro d1 hd
          cases hd
          refine ⟨_, rfl, fun i => ?_⟩
          have htime1 : "time" ∈ d0.cols := htime
          rw [if_pos htime1]
          show ((ilocStride s d0.rows).map _).get? i = _
          rw [← ilocStride_map, ilocStride_get? s hs]
          rfl
      · cases h
    · next htime =>
      split at h
      · cases h
        refine ⟨fun i => ilocStride_get? s hs cv.rows i, fun hs1 => ?_, ?_⟩
        · subst hs1
          exact ilocStride_one cv.rows
        · intro d1 hd
          cases hd
          refine ⟨_, rfl, fun i => ?_⟩
          have htime1 : "time" ∉ d0.cols := htime
          rw [if_neg htime1]
          exact ilocStride_get? s hs d0.rows i
      · cases h

theorem stride_rows_amended_witness :
    0 < 2 ∧
    Loader.init (⟨["x"], [[0], [1], [2]]⟩ : DataFrame ℚ)
        (Option.some ⟨["time", "d1"], [[0, 7], [1, 8], [2, 9]]⟩) 1 2
      = Except.ok
        { colvar := ⟨["x"], [[0], [2]]⟩,
          descriptors := Option.some ⟨["d1"], [[7], [9]]⟩, kbt := 1,
          stride := 2, selected_cvs := Option.none, KDE := Option.none,
          fes := Option.none, minima := Option.none,
          basins := Option.none } ∧
    ((∀ i, ([[0], [2]] : List (List ℚ)).get? i
        = ([[0], [1], [2]] : List (List ℚ)).get? (i * 2)) ∧
      (2 = 1 → ([[0], [2]] : List (List ℚ)) = [[0], [1], [2]]) ∧
      ∀ d0, (Option.some (⟨["time", "d1"], [[0, 7], [1, 8], [2, 9]]⟩ : DataFrame ℚ))
          = Option.some d0 →
        ∃ dd, (Option.some (⟨["d1"], [[7], [9]]⟩ : DataFrame ℚ)) = Option.some dd ∧
          ∀ i, dd.rows.get? i
            = ((if "time" ∈ d0.cols then dropColumn "time" d0 else d0).rows).get?
                (i * 2)) :=
  ⟨Nat.zero_lt_succ 1, rfl, by
    have h := stride_rows_amended (⟨["x"], [[0], [1], [2]]⟩ : DataFrame ℚ)
      (Option.some ⟨["time", "d1"], [[0, 7], [1, 8], [2, 9]]⟩) 1 2
      (Nat.zero_lt_succ 1) _ rfl
    simpa using h⟩

/-- C10: `identify_states` raises `TypeError` when `logweights` is not `None`
and neither a string, a `pandas.DataFrame` nor a `numpy.ndarray`, and raises
`ValueError` when the weight array obtained from `logweights` is not 1-D (in
particular always for a `DataFrame`, whose `.values` is 2-D).  The validation
happens before any assignment (lines 143-164), so an error computes no
minima and no basins: the run returns `Except.error` and no updated state. -/
theorem invalid_logweights_errors
    (lg : List (List K) → Option (List K) → List K → K)
    (optF : (List K → K) → List (K × K) → List (List K))
    (L : Loader K) (cvs : List String) (bounds : List (K × K))
    (cutoff : K) (ms : Bool) (splits : ℕ) :
    identify_states lg optF L cvs bounds LogWeights.other cutoff ms splits
        = Except.error Err.TypeError ∧
    (∀ a : PyArray K, a.ndim ≠ 1 →
      identify_states lg optF L cvs bounds (LogWeights.arr a) cutoff ms splits
        = Except.error Err.ValueError) ∧
    (∀ d : DataFrame K,
      identify_states lg optF L cvs bounds (LogWeights.df d) cutoff ms splits
        = Except.error Err.ValueError) := by
  refine ⟨?_, fun a ha => ?_, fun d => ?_⟩
  · simp [identify_states, validate_logweights, Except.bind]
  · simp [identify_states, validate_logweights, ha, Except.bind]
  · simp [identify_states, validate_logweights, Except.bind]

theorem invalid_logweights_errors_witness :
    identify_states (fun _ _ _ => (0 : ℚ)) (fun _ _ => [[0]]) sampleLoader
        ["x"] [] LogWeights.other 5 false 50 = Except.error Err.TypeError ∧
    ((⟨2, []⟩ : PyArray ℚ).ndim ≠ 1 ∧
      identify_states (fun _ _ _ => (0 : ℚ)) (fun _ _ => [[0]]) sampleLoader
        ["x"] [] (LogWeights.arr ⟨2, []⟩) 5 false 50
          = Except.error Err.ValueError) :=
  ⟨(invalid_logweights_errors (fun _ _ _ => (0 : ℚ)) (fun _ _ => [[0]])
      sampleLoader ["x"] [] 5 false 50).1,
    by decide,
    (invalid_logweights_errors (fun _ _ _ => (0 : ℚ)) (fun _ _ => [[0]])
      sampleLoader ["x"] [] 5 false 50).2.1 ⟨2, []⟩ (by decide)⟩

end MDLoader
